import Mathlib

/-!
# The libSoX skeleton format handler (src/skelform.c)

A shallow embedding of the seven handler functions of skelform.c and of the
capability table, followed by theorems about them.

Conventions of the embedding.
* The session `sox_format_t` is passed explicitly and returned updated.
* Host primitives that skelform.c calls but does not define are either
  parameters (`sox_filelength`, `sox_writeb`, the width of `sox_size_t`) or
  small definitions whose doc comment says where they come from (the C
  library stream functions, the sample conversions of sox.h).
* A call of `exit(2)` is the outcome `exited 2`, carrying the state reached
  when the process stops.
-/

namespace SoxSkel

/-! ## Data model -/

/-- Status returned by a handler function on success (sox.h). -/
def SOX_SUCCESS : Int := 0

/-- Status returned by a handler function on failure (sox.h); it is the C value EOF. -/
def SOX_EOF : Int := -1

/-- The sample encodings of sox.h that matter to this handler. skelform.c names
`SOX_ENCODING_SIGN2` and `SOX_ENCODING_UNSIGNED`; the other constructors stand for
encodings it never names, all of which fall in the `default:` branches. -/
inductive sox_encoding_t where
  | UNKNOWN
  | SIGN2
  | UNSIGNED
  | FLOAT
  | ULAW
  | ALAW
  deriving DecidableEq, Repr

/-- The part of `ft->signal` that skelform.c touches. The rate is a whole number of Hz. -/
structure sox_signalinfo_t where
  rate : Nat
  channels : Nat
  deriving DecidableEq, Repr

/-- The part of `ft->encoding` that skelform.c touches. -/
structure sox_encodinginfo_t where
  encoding : sox_encoding_t
  bits_per_sample : Nat
  deriving DecidableEq, Repr

/-- Private data for SKEL file (`struct skelform`). -/
structure skelform where
  remaining_samples : Nat
  deriving DecidableEq, Repr

/-- A C library input stream (`FILE *`): the bytes of the resource, the file position
indicator and the end-of-file indicator. -/
structure FILE where
  data : List Nat
  pos : Nat
  eof : Bool
  deriving DecidableEq, Repr

/-- The session `sox_format_t`, restricted to what skelform.c reads or writes.
`sunk` and `reports` are traces kept by the embedding: the units handed to
`sox_writeb` so far (oldest first) and the messages handed to `sox_fail` or
`sox_fail_errno` so far (oldest first). -/
structure sox_format_t where
  seekable : Bool
  signal : sox_signalinfo_t
  encoding : sox_encodinginfo_t
  comments : List String
  length : Nat
  clips : Nat
  sox_errno : Int
  sox_errstr : String
  priv : skelform
  fp : FILE
  sunk : List Nat
  reports : List String
  deriving DecidableEq, Repr

/-- How a call ends: it returns a value, or the process stops through `exit(code)`.
Both carry the state reached at that point. -/
inductive Outcome (σ : Type) where
  | returned (value : Nat) (state : σ)
  | exited (code : Nat) (state : σ)
  deriving DecidableEq, Repr

/-! ## Host primitives -/

/-- The host call `sox_fail(msg)`: the message is reported, nothing else changes. -/
def sox_fail (ft : sox_format_t) (msg : String) : sox_format_t :=
  { ft with reports := ft.reports ++ [msg] }

/-- The host call `sox_fail_errno(ft, errno, msg)`: records the error number and the
message in the session and reports the message. -/
def sox_fail_errno (ft : sox_format_t) (errno : Int) (msg : String) : sox_format_t :=
  { ft with sox_errno := errno, sox_errstr := msg, reports := ft.reports ++ [msg] }

/-- The host call `append_comment(&ft->comments, text)`. -/
def append_comment (comments : List String) (text : String) : List String :=
  comments ++ [text]

/-- C library `feof`: tests the end-of-file indicator of the stream, and nothing else. -/
def feof (fp : FILE) : Bool := fp.eof

/-- C library `fgetc`: when a byte is left, returns it and advances the position;
otherwise sets the end-of-file indicator and returns EOF. -/
def fgetc (fp : FILE) : Int × FILE :=
  if h : fp.pos < fp.data.length then
    (((fp.data.get ⟨fp.pos, h⟩ : Nat) : Int), { fp with pos := fp.pos + 1 })
  else
    (-1, { fp with eof := true })

/-- Conversion of a C `int` to `unsigned char`, as in `sample = fgetc(ft->fp)`. -/
def to_uchar (c : Int) : Nat := (c % 256).toNat

/-- Conversion of a C `int` to `sox_size_t`, an unsigned type of `w` bits. -/
def to_size (w : Nat) (r : Int) : Nat := (r % (2 : Int) ^ w).toNat

/-- Number of bytes of the resource not yet consumed. -/
def unread (fp : FILE) : Nat := fp.data.length - fp.pos

/-! ## startread -/

/-- The function `startread` of skelform.c. `sox_filelength` is the host length query,
whose result is a `sox_size_t`. Returns the status and the updated session. -/
def startread (sox_filelength : sox_format_t → Nat) (ft : sox_format_t) :
    Int × sox_format_t :=
  if !ft.seekable then
    (SOX_EOF, sox_fail_errno ft SOX_EOF "skel inputfile must be a file")
  else
    let ft1 := { ft with signal := { ft.signal with rate := 44100 } }
    let ft2 := { ft1 with signal := { ft1.signal with channels := 1 } }
    let ft3 := { ft2 with encoding := { ft2.encoding with bits_per_sample := 8 } }
    let ft4 := { ft3 with encoding := { ft3.encoding with encoding := .UNSIGNED } }
    let ft5 := { ft4 with
      comments := append_comment ft4.comments "any comment in file header." }
    let samples_in_file := sox_filelength ft5 / (ft5.encoding.bits_per_sample >>> 3)
    let ft6 := { ft5 with length := samples_in_file }
    let ft7 := { ft6 with priv := { ft6.priv with remaining_samples := samples_in_file } }
    (SOX_SUCCESS, ft7)

/-! ## startwrite -/

/-- The function `startwrite` of skelform.c. Returns the status and the updated session. -/
def startwrite (ft : sox_format_t) : Int × sox_format_t :=
  if !ft.seekable then
    (SOX_EOF, sox_fail ft "Output .skel file must be a file, not a pipe")
  else
    let ft1 :=
      if ft.signal.rate ≠ 44100 then
        sox_fail ft "Output .skel file must have a sample rate of 44100Hz"
      else ft
    if ft1.encoding.bits_per_sample = 0 then
      (SOX_EOF, sox_fail ft1 "Did not specify a size for .skel output file")
    else
      (SOX_SUCCESS, ft1)

/-! ## Sample conversions -/

/-- Reinterpretation of a 32-bit pattern as a `sox_sample_t` (two's complement). -/
def to_sample (u : Nat) : Int :=
  if u % 2 ^ 32 < 2 ^ 31 then ((u % 2 ^ 32 : Nat) : Int) else ((u % 2 ^ 32 : Nat) : Int) - 2 ^ 32

/-- Modelled from the spec: the conversion `SOX_UNSIGNED_8BIT_TO_SAMPLE` is defined in
sox.h, which skelform.c includes through sox_i.h and which is not among the source files. The byte is shifted left 24 bits and
its sign bit is flipped, the result being read as a 32-bit signed sample. -/
def SOX_UNSIGNED_8BIT_TO_SAMPLE (d : Nat) : Int :=
  to_sample (((d <<< 24) % 2 ^ 32) ^^^ 0x80000000)

/-- Modelled from the spec: the conversion `SOX_SAMPLE_TO_UNSIGNED_8BIT` is defined in
sox.h, which skelform.c includes through sox_i.h and which is not among the source files. A sample above the largest value that
still rounds to 255 is clipped: the result is 255 and the clip counter (a `sox_size_t`
of `w` bits) is incremented. Otherwise the sign bit is flipped, half a unit is added and
the top eight bits are kept. Returns the unit and the new clip counter. -/
def SOX_SAMPLE_TO_UNSIGNED_8BIT (w : Nat) (d : Int) (clips : Nat) : Nat × Nat :=
  if d > 0x7fffffff - 0x800000 then
    (255, (clips + 1) % 2 ^ w)
  else
    (((d + 2 ^ 31 + 2 ^ 23) / 2 ^ 24).toNat % 256, clips)

/-! ## read_samples -/

/-- The loop of `read_samples`, by recursion on the number `len - done` of iterations the
loop test `done < len` still allows. `out` holds the samples stored through `*buf++` so
far, oldest first. -/
def read_loop : Nat → sox_format_t → List Int → Nat → Outcome (sox_format_t × List Int)
  | 0, ft, out, done => .returned done (ft, out)
  | k + 1, ft, out, done =>
    if feof ft.fp then
      .returned done (ft, out)
    else
      let c := fgetc ft.fp
      let sample := to_uchar c.1
      let ft1 := { ft with fp := c.2 }
      if ft1.encoding.bits_per_sample = 8 then
        match ft1.encoding.encoding with
        | .UNSIGNED =>
          read_loop k ft1 (out ++ [SOX_UNSIGNED_8BIT_TO_SAMPLE sample]) (done + 1)
        | _ => .exited 2 (sox_fail ft1 "Undetected sample encoding in read!", out)
      else
        .exited 2 (sox_fail ft1 "Undetected bad sample size in read!", out)

/-- The function `read_samples` of skelform.c: the value returned is `done`, the state is
the session together with the samples stored in `buf`. -/
def read_samples (ft : sox_format_t) (len : Nat) : Outcome (sox_format_t × List Int) :=
  read_loop len ft [] 0

/-- The function `stopread` of skelform.c. -/
def stopread (ft : sox_format_t) : Int × sox_format_t := (SOX_SUCCESS, ft)

/-! ## write_samples -/

/-- The loop `while (len--) ...` of `write_samples`. `w` is the width of `sox_size_t`;
`sox_writeb units u` is the status the host byte sink returns when handed the unit `u`
after the units `units`; `buf i` is the sample at `buf[i]`; `i` is how far `buf` has
advanced. The loop need not end, so each test of the loop condition uses one unit of
`fuel`, and `none` means the fuel ran out. -/
def write_loop (w : Nat) (sox_writeb : List Nat → Nat → Int) (buf : Nat → Int) :
    Nat → sox_format_t → Nat → Nat → Option (Outcome sox_format_t)
  | 0, _, _, _ => none
  | fuel + 1, ft, i, len =>
    let len1 := (len + 2 ^ w - 1) % 2 ^ w
    if len = 0 then
      some (.returned len1 ft)
    else
      let u := SOX_SAMPLE_TO_UNSIGNED_8BIT w (buf i) ft.clips
      let ft1 := { ft with clips := u.2 }
      let r := sox_writeb ft1.sunk u.1
      let ft2 := { ft1 with sunk := ft1.sunk ++ [u.1] }
      let len2 := to_size w r
      if len2 = 0 then
        some (.returned len2 ft2)
      else
        write_loop w sox_writeb buf fuel ft2 (i + 1) len2

/-- The function `write_samples` of skelform.c. -/
def write_samples (w : Nat) (sox_writeb : List Nat → Nat → Int) (fuel : Nat)
    (ft : sox_format_t) (buf : Nat → Int) (len : Nat) : Option (Outcome sox_format_t) :=
  if ft.encoding.bits_per_sample = 8 then
    match ft.encoding.encoding with
    | .UNSIGNED => write_loop w sox_writeb buf fuel ft 0 len
    | _ => some (.exited 2 (sox_fail ft "Undetected bad sample encoding in write!"))
  else
    some (.exited 2 (sox_fail ft "Undetected bad sample size in write!"))

/-- The function `stopwrite` of skelform.c. -/
def stopwrite (ft : sox_format_t) : Int × sox_format_t := (SOX_SUCCESS, ft)

/-! ## seek -/

/-- The function `seek` of skelform.c: both arguments are unused. -/
def seek (ft : sox_format_t) (_offset : Nat) : Int × sox_format_t := (SOX_SUCCESS, ft)

/-! ## Handler tables -/

/-- One `unsigned` entry of the table `encodings`: an encoding or a number. -/
inductive cell where
  | enc (e : sox_encoding_t)
  | num (n : Nat)
  deriving DecidableEq, Repr

/-- Format file suffixes (`names`, without the closing NULL). -/
def names : List String := ["skel"]

/-- Encoding types and sizes that this handler can write (`encodings`). -/
def encodings : List cell :=
  [.enc .SIGN2, .num 16, .num 0,
   .enc .UNSIGNED, .num 8, .num 0,
   .num 0]

/-- Modelled from the spec: the host reads a capability table as an ordered list of
(encoding, bits per sample) pairs. Each group is an encoding followed by its sizes and a
closing 0; a 0 where an encoding is expected ends the table. The first argument is the
encoding of the group being read, if any. -/
def advertised_from : Option sox_encoding_t → List cell → List (sox_encoding_t × Nat)
  | _, [] => []
  | none, .enc e :: rest => advertised_from (some e) rest
  | none, .num _ :: _ => []
  | some _, .num 0 :: rest => advertised_from none rest
  | some e, .num (n + 1) :: rest => (e, n + 1) :: advertised_from (some e) rest
  | some _, .enc _ :: _ => []

/-- The (encoding, bits per sample) pairs a capability table advertises. -/
def advertised (table : List cell) : List (sox_encoding_t × Nat) :=
  advertised_from none table

/-! ## Observations on sessions and outcomes -/

/-- The messages reported between the session state `before` and the later state `after`. -/
def reported_since (before after : sox_format_t) : List String :=
  after.reports.drop before.reports.length

/-- The units handed to the byte sink between the state `before` and the later state `after`. -/
def sunk_since (before after : sox_format_t) : List Nat :=
  after.sunk.drop before.sunk.length

/-- The value a call returned, if it returned. -/
def Outcome.value? {σ : Type} : Outcome σ → Option Nat
  | .returned v _ => some v
  | .exited _ _ => none

/-- The state a call ended in, whether it returned or stopped the process. -/
def Outcome.state {σ : Type} : Outcome σ → σ
  | .returned _ s => s
  | .exited _ s => s

/-- A session as the host hands it to the handler: nothing reported, nothing written,
the stream at its start with the end-of-file indicator clear. -/
def session (seekable : Bool) (rate channels : Nat) (e : sox_encoding_t) (bits : Nat)
    (data : List Nat) : sox_format_t :=
  { seekable := seekable, signal := ⟨rate, channels⟩, encoding := ⟨e, bits⟩, comments := [],
    length := 0, clips := 0, sox_errno := 0, sox_errstr := "", priv := ⟨0⟩,
    fp := ⟨data, 0, false⟩, sunk := [], reports := [] }

/-- A length query that answers with the number of bytes of the resource. -/
def byte_length (ft : sox_format_t) : Nat := ft.fp.data.length

/-- The sample read_samples stores for the value `c` that `fgetc` returned, in an 8-bit
unsigned session: `c` is narrowed to `unsigned char` and converted. -/
def stored_sample (c : Int) : Int := SOX_UNSIGNED_8BIT_TO_SAMPLE (to_uchar c)

/-- The stream `fp` moved forward by `k` bytes. -/
def advanced (ft : sox_format_t) (k : Nat) : sox_format_t :=
  { ft with fp := { ft.fp with pos := ft.fp.pos + k } }

/-- The session `ft` with the end-of-file indicator of its stream set. -/
def at_eof (ft : sox_format_t) : sox_format_t :=
  { ft with fp := { ft.fp with eof := true } }

/-- The session `ft` with its stream repositioned at the first byte. -/
def rewound (ft : sox_format_t) : sox_format_t :=
  { ft with fp := { ft.fp with pos := 0 } }

/-- The next `k` bytes of the stream, as `fgetc` would return them. -/
def next_bytes (fp : FILE) (k : Nat) : List Int :=
  ((fp.data.drop fp.pos).take k).map Int.ofNat

/-! ## Sequences of handler calls -/

/-- One call the host may issue on an open session after negotiation. A write call carries
what `write_samples` is given in this embedding: the width of `sox_size_t`, the byte sink,
the fuel, the buffer and the count. -/
inductive op where
  | read (len : Nat)
  | seek (offset : Nat)
  | stopread
  | write (w : Nat) (sox_writeb : List Nat → Nat → Int) (fuel : Nat) (buf : Nat → Int)
      (len : Nat)
  | stopwrite

/-- Whether the call belongs to the decode side: `read_samples`, `seek` or `stopread`. -/
def op.decode : op → Bool
  | .read _ => true
  | .seek _ => true
  | .stopread => true
  | .write _ _ _ _ _ => false
  | .stopwrite => false

/-- The session after one call, provided the call returns; `none` when the call stops the
process or, for a write, when the fuel runs out. -/
def step (ft : sox_format_t) : op → Option sox_format_t
  | .read len =>
    match read_samples ft len with
    | .returned _ st => some st.1
    | .exited _ _ => none
  | .seek offset => some (seek ft offset).2
  | .stopread => some (stopread ft).2
  | .write w sox_writeb fuel buf len =>
    match write_samples w sox_writeb fuel ft buf len with
    | some (.returned _ st) => some st
    | _ => none
  | .stopwrite => some (stopwrite ft).2

/-- The session after a sequence of calls that all return. -/
def run : sox_format_t → List op → Option sox_format_t
  | ft, [] => some ft
  | ft, o :: os =>
    match step ft o with
    | some ft1 => run ft1 os
    | none => none

/-- A byte sink that accepts the first `k` units it is handed (status SOX_SUCCESS) and
refuses every later one (status SOX_EOF). -/
def accepts_first (k : Nat) (units : List Nat) (_u : Nat) : Int :=
  if units.length < k then SOX_SUCCESS else SOX_EOF

/-! ## Theorems: session negotiation -/

/-- C3: on a seekable resource whose length query returns L, whatever the session held
before, startread succeeds and leaves rate 44100, one channel, 8 bits per sample,
unsigned encoding; the divisor bits_per_sample >> 3 is 1 (so never zero), and both
the session length and remaining_samples are L / 1 = L. -/
theorem startread_seekable_fixes_format (q : sox_format_t → Nat) (ft : sox_format_t) (L : Nat)
    (hseek : ft.seekable = true) (hL : ∀ s : sox_format_t, s.fp = ft.fp → q s = L) :
    (startread q ft).1 = SOX_SUCCESS ∧
    (startread q ft).2.signal.rate = 44100 ∧
    (startread q ft).2.signal.channels = 1 ∧
    (startread q ft).2.encoding.bits_per_sample = 8 ∧
    (startread q ft).2.encoding.encoding = sox_encoding_t.UNSIGNED ∧
    (startread q ft).2.encoding.bits_per_sample >>> 3 = 1 ∧
    (startread q ft).2.length = L / ((startread q ft).2.encoding.bits_per_sample >>> 3) ∧
    (startread q ft).2.length = L ∧
    (startread q ft).2.priv.remaining_samples = L := by
  have h := hL { ft with
      signal := ⟨44100, 1⟩, encoding := ⟨.UNSIGNED, 8⟩,
      comments := append_comment ft.comments "any comment in file header." } rfl
  simp only [hseek] at h
  simp [startread, hseek, h, SOX_SUCCESS]

/-- Witness for C3: a seekable three-byte resource that held rate 8000, two channels and
16-bit signed samples before. -/
theorem startread_seekable_fixes_format_witness :
    (startread byte_length (session true 8000 2 .SIGN2 16 [1, 2, 3])).1 = SOX_SUCCESS ∧
    (startread byte_length (session true 8000 2 .SIGN2 16 [1, 2, 3])).2.length = 3 ∧
    (startread byte_length (session true 8000 2 .SIGN2 16 [1, 2, 3])).2.priv.remaining_samples
      = 3 :=
  have h := startread_seekable_fixes_format byte_length (session true 8000 2 .SIGN2 16 [1, 2, 3])
    3 rfl (fun s hs => by simp [byte_length, hs, session])
  ⟨h.1, h.2.2.2.2.2.2.2.1, h.2.2.2.2.2.2.2.2⟩

/-- C7: startread fails exactly when the resource is not seekable, and a failing startread
leaves rate, channels, bit depth, encoding, length and remaining_samples as they were and
leaves the stream untouched (no byte consumed). -/
theorem startread_fails_iff_unseekable (q : sox_format_t → Nat) (ft : sox_format_t) :
    ((startread q ft).1 ≠ SOX_SUCCESS ↔ ft.seekable = false) ∧
    ((startread q ft).1 ≠ SOX_SUCCESS →
      (startread q ft).1 = SOX_EOF ∧
      (startread q ft).2.signal = ft.signal ∧
      (startread q ft).2.encoding = ft.encoding ∧
      (startread q ft).2.length = ft.length ∧
      (startread q ft).2.priv.remaining_samples = ft.priv.remaining_samples ∧
      (startread q ft).2.fp = ft.fp) := by
  cases hseek : ft.seekable <;>
    simp [startread, hseek, sox_fail_errno, SOX_SUCCESS, SOX_EOF]

/-- C5 (counterexample): an unseekable session at 8000 Hz with 8 bits per sample. The rate
differs from 44100, yet startwrite returns at the seekable test: the only message it
reports is the unseekable-resource one, and the rate is not reported. -/
theorem startwrite_unseekable_rate_not_reported :
    (session false 8000 1 .UNSIGNED 8 []).signal.rate ≠ 44100 ∧
    (startwrite (session false 8000 1 .UNSIGNED 8 [])).1 = SOX_EOF ∧
    reported_since (session false 8000 1 .UNSIGNED 8 [])
        (startwrite (session false 8000 1 .UNSIGNED 8 [])).2
      = ["Output .skel file must be a file, not a pipe"] ∧
    ¬ ("Output .skel file must have a sample rate of 44100Hz"
        ∈ reported_since (session false 8000 1 .UNSIGNED 8 [])
            (startwrite (session false 8000 1 .UNSIGNED 8 [])).2) := by
  simp [startwrite, session, sox_fail, reported_since, SOX_EOF]

/-- C5 (amended): startwrite succeeds exactly when the resource is seekable and
bits_per_sample is nonzero; the status does not depend on the rate; on a seekable resource
a rate is reported exactly when it is not 44100; on an unseekable resource the
unseekable-resource error is the only message reported, whatever the rate; and on every
outcome rate, channels, bit depth and encoding are as before. -/
theorem startwrite_success_iff (ft : sox_format_t) :
    ((startwrite ft).1 = SOX_SUCCESS ↔
      (ft.seekable = true ∧ ft.encoding.bits_per_sample ≠ 0)) ∧
    (∀ r : Nat, (startwrite { ft with signal := { ft.signal with rate := r } }).1
      = (startwrite ft).1) ∧
    (ft.seekable = true →
      ("Output .skel file must have a sample rate of 44100Hz"
          ∈ reported_since ft (startwrite ft).2 ↔ ft.signal.rate ≠ 44100)) ∧
    (ft.seekable = false →
      reported_since ft (startwrite ft).2
        = ["Output .skel file must be a file, not a pipe"]) ∧
    (startwrite ft).2.signal = ft.signal ∧
    (startwrite ft).2.encoding = ft.encoding := by
  refine ⟨?_, ?_, ?_, ?_, ?_, ?_⟩
  · cases hseek : ft.seekable <;> by_cases hb : ft.encoding.bits_per_sample = 0 <;>
      by_cases hr : ft.signal.rate = 44100 <;>
      simp [startwrite, hseek, hb, hr, sox_fail, SOX_SUCCESS, SOX_EOF]
  · intro r
    cases hseek : ft.seekable <;> by_cases hb : ft.encoding.bits_per_sample = 0 <;>
      by_cases hr : ft.signal.rate = 44100 <;> by_cases hr2 : r = 44100 <;>
      simp [startwrite, hseek, hb, hr, hr2, sox_fail, SOX_SUCCESS, SOX_EOF]
  · intro hseek
    by_cases hb : ft.encoding.bits_per_sample = 0 <;>
      by_cases hr : ft.signal.rate = 44100 <;>
      simp [startwrite, hseek, hb, hr, sox_fail, reported_since]
  · intro hseek
    simp [startwrite, hseek, sox_fail, reported_since]
  · cases hseek : ft.seekable <;> by_cases hb : ft.encoding.bits_per_sample = 0 <;>
      by_cases hr : ft.signal.rate = 44100 <;>
      simp [startwrite, hseek, hb, hr, sox_fail]
  · cases hseek : ft.seekable <;> by_cases hb : ft.encoding.bits_per_sample = 0 <;>
      by_cases hr : ft.signal.rate = 44100 <;>
      simp [startwrite, hseek, hb, hr, sox_fail]

/-- C6 (counterexample): an unseekable session with bits_per_sample = 0 fails, but the only
error startwrite reports is the unseekable-resource one; the missing-size error is not
reported. -/
theorem startwrite_unseekable_zero_bits_reports_pipe :
    (startwrite (session false 44100 1 .UNSIGNED 0 [])).1 = SOX_EOF ∧
    reported_since (session false 44100 1 .UNSIGNED 0 [])
        (startwrite (session false 44100 1 .UNSIGNED 0 [])).2
      = ["Output .skel file must be a file, not a pipe"] ∧
    ¬ ("Did not specify a size for .skel output file"
        ∈ reported_since (session false 44100 1 .UNSIGNED 0 [])
            (startwrite (session false 44100 1 .UNSIGNED 0 [])).2) := by
  simp [startwrite, session, sox_fail, reported_since, SOX_EOF]

/-- C6 (amended): with bits_per_sample = 0 startwrite always fails. On a seekable resource
the error it reports last is the missing-size error, whatever the rate and encoding, and
the unseekable-resource error is not reported; on an unseekable resource the
unseekable-resource error is the only one reported. -/
theorem startwrite_zero_bits_fails (ft : sox_format_t)
    (h0 : ft.encoding.bits_per_sample = 0) :
    (startwrite ft).1 = SOX_EOF ∧
    (ft.seekable = true →
      (reported_since ft (startwrite ft).2).getLast?
        = some "Did not specify a size for .skel output file" ∧
      ¬ ("Output .skel file must be a file, not a pipe"
          ∈ reported_since ft (startwrite ft).2)) ∧
    (ft.seekable = false →
      reported_since ft (startwrite ft).2
        = ["Output .skel file must be a file, not a pipe"]) := by
  cases hseek : ft.seekable <;> by_cases hr : ft.signal.rate = 44100 <;>
    simp [startwrite, hseek, h0, hr, sox_fail, reported_since, SOX_EOF]

/-- Witness for C6 (amended): a seekable session at 8000 Hz with signed encoding and no
sample size. -/
theorem startwrite_zero_bits_fails_witness :
    (startwrite (session true 8000 1 .SIGN2 0 [])).1 = SOX_EOF ∧
    (reported_since (session true 8000 1 .SIGN2 0 [])
        (startwrite (session true 8000 1 .SIGN2 0 [])).2).getLast?
      = some "Did not specify a size for .skel output file" :=
  have h := startwrite_zero_bits_fails (session true 8000 1 .SIGN2 0 []) rfl
  ⟨h.1, (h.2.1 rfl).1⟩

/-! ## Theorems: write_samples -/

/-- Once the loop of write_samples has been entered with a nonzero count, the only value
it can return is 0, whatever the byte sink answers. -/
theorem write_loop_returns_zero (w : Nat) (sink : List Nat → Nat → Int) (buf : Nat → Int) :
    ∀ (fuel : Nat) (ft : sox_format_t) (i len v : Nat) (st : sox_format_t),
      len ≠ 0 → write_loop w sink buf fuel ft i len = some (.returned v st) → v = 0 := by
  intro fuel
  induction fuel with
  | zero => intro ft i len v st _ h; simp [write_loop] at h
  | succ k ih =>
    intro ft i len v st hlen h
    simp only [write_loop, hlen, if_false] at h
    split at h
    · rename_i hz
      simp only [Option.some.injEq, Outcome.returned.injEq] at h
      rw [← h.1, hz]
    · rename_i hz
      exact ih _ _ _ v st hz h

/-- The loop of write_samples never stops the process. -/
theorem write_loop_never_exits (w : Nat) (sink : List Nat → Nat → Int) (buf : Nat → Int) :
    ∀ (fuel : Nat) (ft : sox_format_t) (i len c : Nat) (st : sox_format_t),
      write_loop w sink buf fuel ft i len ≠ some (.exited c st) := by
  intro fuel
  induction fuel with
  | zero => intro ft i len c st h; simp [write_loop] at h
  | succ k ih =>
    intro ft i len c st h
    simp only [write_loop] at h
    split at h
    · simp at h
    · split at h
      · simp at h
      · exact ih _ _ _ c st h

/-- C9: for a session whose (bits_per_sample, encoding) pair is not (8, unsigned),
write_samples stops the process with exit code 2 after reporting exactly one of its two
unsupported-format messages, whatever the count, the buffer, the sink and the fuel; it
hands no unit to the sink and leaves the clip counter as it was. -/
theorem write_samples_unsupported_is_fatal (w : Nat) (sink : List Nat → Nat → Int)
    (fuel : Nat) (ft : sox_format_t) (buf : Nat → Int) (n : Nat)
    (h : ¬ (ft.encoding.bits_per_sample = 8 ∧ ft.encoding.encoding = .UNSIGNED)) :
    ∃ st : sox_format_t,
      write_samples w sink fuel ft buf n = some (.exited 2 st) ∧
      (reported_since ft st = ["Undetected bad sample size in write!"] ∨
        reported_since ft st = ["Undetected bad sample encoding in write!"]) ∧
      sunk_since ft st = [] ∧ st.sunk = ft.sunk ∧ st.clips = ft.clips := by
  by_cases h8 : ft.encoding.bits_per_sample = 8
  · have hU : ft.encoding.encoding ≠ .UNSIGNED := fun hU => h ⟨h8, hU⟩
    refine ⟨sox_fail ft "Undetected bad sample encoding in write!", ?_, ?_⟩
    · cases he : ft.encoding.encoding <;> simp_all [write_samples]
    · simp [sox_fail, reported_since, sunk_since]
  · refine ⟨sox_fail ft "Undetected bad sample size in write!", ?_, ?_⟩
    · simp [write_samples, h8]
    · simp [sox_fail, reported_since, sunk_since]

/-- Witness for C9: a 16-bit unsigned session, count 3, a sink that accepts everything. -/
theorem write_samples_unsupported_is_fatal_witness :
    ∃ st : sox_format_t,
      write_samples 32 (fun _ _ => SOX_SUCCESS) 5 (session true 44100 1 .UNSIGNED 16 [])
          (fun _ => 0) 3 = some (.exited 2 st) ∧
      st.sunk = [] ∧ st.clips = 0 :=
  have h := write_samples_unsupported_is_fatal 32 (fun _ _ => SOX_SUCCESS) 5
    (session true 44100 1 .UNSIGNED 16 []) (fun _ => 0) 3 (by decide)
  h.elim fun st hst => ⟨st, hst.1, hst.2.2.2.1, hst.2.2.2.2⟩

/-- C10 (code at the failing input): the table advertises (signed, 16) first and
(unsigned, 8) second, yet for a 16-bit signed session write_samples reports
"Undetected bad sample size in write!" and stops the process with exit code 2, for every
count, buffer, sink and fuel, handing nothing to the sink. -/
theorem write_samples_rejects_advertised_sign2_16 :
    advertised encodings = [(sox_encoding_t.SIGN2, 16), (sox_encoding_t.UNSIGNED, 8)] ∧
    ∀ (w : Nat) (sink : List Nat → Nat → Int) (fuel : Nat) (buf : Nat → Int) (n : Nat),
      write_samples w sink fuel (session true 44100 1 .SIGN2 16 []) buf n
        = some (.exited 2 (sox_fail (session true 44100 1 .SIGN2 16 [])
            "Undetected bad sample size in write!")) := by
  refine ⟨by decide, ?_⟩
  intro w sink fuel buf n
  simp [write_samples, session]

/-- C1 (code at the failing input): an 8-bit unsigned session, two samples to write. With
a sink that accepts every unit and answers SOX_SUCCESS, write_samples hands over one unit
only and returns 0, not 2. And whatever status any sink answers, a call that returns at
all returns 0, so it never returns the requested 2. -/
theorem write_samples_two_returns_zero :
    (∀ fuel : Nat,
      write_samples 32 (fun _ _ => SOX_SUCCESS) (fuel + 1)
          (session true 44100 1 .UNSIGNED 8 []) (fun _ => 0) 2
        = some (.returned 0
            { session true 44100 1 .UNSIGNED 8 [] with sunk := [128] })) ∧
    (∀ (w : Nat) (sink : List Nat → Nat → Int) (fuel : Nat) (buf : Nat → Int) (v : Nat)
        (st : sox_format_t),
      write_samples w sink fuel (session true 44100 1 .UNSIGNED 8 []) buf 2
        = some (.returned v st) → v = 0) := by
  constructor
  · intro fuel
    simp [write_samples, session, write_loop, SOX_SAMPLE_TO_UNSIGNED_8BIT, to_size,
      SOX_SUCCESS]
  · intro w sink fuel buf v st h
    simp only [write_samples, session, if_true] at h
    exact write_loop_returns_zero w sink buf fuel _ 0 2 v st (by decide) h

/-! ## Theorems: read_samples -/

/-- With the end-of-file indicator set the loop of read_samples stops at once. -/
theorem read_loop_eof (k : Nat) (ft : sox_format_t) (out : List Int) (done : Nat)
    (heof : ft.fp.eof = true) : read_loop k ft out done = .returned done (ft, out) := by
  cases k <;> simp [read_loop, feof, heof]

/-- One iteration of the loop of read_samples in an 8-bit unsigned session, when a byte is
unread and the end-of-file indicator is clear: the byte is stored converted and the
stream moves forward by one. -/
theorem read_loop_step (k : Nat) (ft : sox_format_t) (out : List Int) (done : Nat)
    (h8 : ft.encoding.bits_per_sample = 8) (hU : ft.encoding.encoding = .UNSIGNED)
    (heof : ft.fp.eof = false) (hlt : ft.fp.pos < ft.fp.data.length) :
    read_loop (k + 1) ft out done
      = read_loop k (advanced ft 1)
          (out ++ [stored_sample ((ft.fp.data.get ⟨ft.fp.pos, hlt⟩ : Nat) : Int)])
          (done + 1) := by
  simp only [read_loop, feof, heof, fgetc, hlt, dif_pos, h8, hU, if_true]
  simp only [Bool.false_eq_true, if_false, advanced, stored_sample, heof]

/-- In an 8-bit unsigned session, while at least `k` bytes are unread and the end-of-file
indicator is clear, `k` iterations store the `k` next bytes converted and move the stream
forward by `k`. -/
theorem read_loop_within (k : Nat) :
    ∀ (ft : sox_format_t) (out : List Int) (done : Nat),
      ft.encoding.bits_per_sample = 8 → ft.encoding.encoding = .UNSIGNED →
      ft.fp.eof = false → ft.fp.pos + k ≤ ft.fp.data.length →
      read_loop k ft out done
        = .returned (done + k) (advanced ft k, out ++ (next_bytes ft.fp k).map stored_sample) := by
  induction k with
  | zero =>
    intro ft out done _ _ _ _
    simp [read_loop, advanced, next_bytes]
  | succ k ih =>
    intro ft out done h8 hU heof hk
    have hlt : ft.fp.pos < ft.fp.data.length := by omega
    rw [read_loop_step k ft out done h8 hU heof hlt,
      ih (advanced ft 1) _ _ h8 hU heof (by simp only [advanced]; omega)]
    have hst : advanced (advanced ft 1) k = advanced ft (k + 1) := by
      simp [advanced, Nat.add_assoc, Nat.add_comm 1 k]
    have hout : next_bytes ft.fp (k + 1)
        = ((ft.fp.data.get ⟨ft.fp.pos, hlt⟩ : Nat) : Int) :: next_bytes (advanced ft 1).fp k := by
      unfold next_bytes advanced
      rw [List.drop_eq_getElem_cons hlt, List.take_succ_cons, List.map_cons]
      rfl
    rw [hst, hout]
    simp [Nat.add_assoc, Nat.add_comm 1 k]

/-- In an 8-bit unsigned session with no unread byte and the end-of-file indicator still
clear, a read of at least one sample calls fgetc, which returns EOF and sets the
indicator; the EOF value is stored as a sample and counted, and the loop stops at the next
test. -/
theorem read_loop_at_end (k : Nat) (ft : sox_format_t) (out : List Int) (done : Nat)
    (h8 : ft.encoding.bits_per_sample = 8) (hU : ft.encoding.encoding = .UNSIGNED)
    (heof : ft.fp.eof = false) (hend : ¬ ft.fp.pos < ft.fp.data.length) :
    read_loop (k + 1) ft out done
      = .returned (done + 1) (at_eof ft, out ++ [stored_sample (-1)]) := by
  simp only [read_loop, feof, heof, fgetc, hend, dif_neg, h8, hU, if_true]
  simp only [Bool.false_eq_true, if_false, not_false_eq_true]
  rw [read_loop_eof k _ _ _ rfl]
  rfl

/-- Running `a + b` iterations is running `a` and then, if the call has not stopped the
process, `b` more from the state reached. -/
theorem read_loop_add (a b : Nat) :
    ∀ (ft : sox_format_t) (out : List Int) (done : Nat),
      read_loop (a + b) ft out done
        = match read_loop a ft out done with
          | .returned d st => read_loop b st.1 st.2 d
          | .exited c st => .exited c st := by
  induction a with
  | zero => intro ft out done; simp [read_loop]
  | succ a ih =>
    intro ft out done
    rw [Nat.add_right_comm]
    cases heof : ft.fp.eof
    · simp only [read_loop, feof, heof]
      simp only [Bool.false_eq_true, if_false]
      split
      · split
        · exact ih _ _ _
        · rfl
      · rfl
    · rw [read_loop_eof _ _ _ _ heof, read_loop_eof _ _ _ _ heof]
      simp only
      rw [read_loop_eof _ _ _ _ heof]

/-- In an 8-bit unsigned session with the end-of-file indicator clear and `L` unread
bytes, a read of more than `L` samples returns `L + 1`: the `L` bytes converted, then the
EOF value of the failing fgetc converted, with the indicator set. -/
theorem read_samples_past_end (ft : sox_format_t) (n : Nat)
    (h8 : ft.encoding.bits_per_sample = 8) (hU : ft.encoding.encoding = .UNSIGNED)
    (heof : ft.fp.eof = false) (hpos : ft.fp.pos ≤ ft.fp.data.length)
    (hn : unread ft.fp < n) :
    read_samples ft n
      = .returned (unread ft.fp + 1)
          (at_eof (advanced ft (unread ft.fp)),
            (next_bytes ft.fp (unread ft.fp)).map stored_sample ++ [stored_sample (-1)]) := by
  obtain ⟨m, hm⟩ : ∃ m, n = unread ft.fp + (m + 1) := ⟨n - unread ft.fp - 1, by omega⟩
  have hw := read_loop_within (unread ft.fp) ft [] 0 h8 hU heof
    (by simp only [unread]; omega)
  rw [read_samples, hm, read_loop_add, hw]
  simp only
  rw [read_loop_at_end m (advanced ft (unread ft.fp)) _ _ h8 hU heof
    (by simp only [advanced, unread]; omega)]
  simp

/-- C2 (code at the failing input): a freshly opened 8-bit unsigned decode session over a
100-byte resource. A read of 150 samples returns 101, not 100: 101 samples are stored, the
last one being the converted EOF value of the fgetc call that found no byte. The next
read returns 0. -/
theorem read_samples_150_of_100_returns_101 :
    (read_samples
      (startread byte_length (session true 0 0 .UNKNOWN 0 (List.replicate 100 7))).2
      150).value? = some 101 ∧
    (read_samples
      (startread byte_length (session true 0 0 .UNKNOWN 0 (List.replicate 100 7))).2
      150).state.2.length = 101 ∧
    (read_samples
      (startread byte_length (session true 0 0 .UNKNOWN 0 (List.replicate 100 7))).2
      150).state.2.getLast? = some (stored_sample (-1)) ∧
    (read_samples
      (read_samples
        (startread byte_length (session true 0 0 .UNKNOWN 0 (List.replicate 100 7))).2
        150).state.1 1).value? = some 0 := by
  have hu : unread
      (startread byte_length (session true 0 0 .UNKNOWN 0 (List.replicate 100 7))).2.fp
        = 100 := by
    simp [unread, startread, session]
  have h := read_samples_past_end
    (startread byte_length (session true 0 0 .UNKNOWN 0 (List.replicate 100 7))).2 150
    rfl rfl rfl (by simp [startread, session]) (by rw [hu]; decide)
  rw [h, hu]
  refine ⟨rfl, ?_, ?_, ?_⟩
  · simp [Outcome.state, next_bytes, startread, session]
  · simp [Outcome.state]
  · simp only [Outcome.state, read_samples]
    rw [read_loop_eof 1 _ _ _ rfl]
    rfl

/-- C8 (counterexample): a 16-bit unsigned decode session over the one-byte resource 7.
A read of 0 samples returns 0 and does not fail. A read of 1 sample does stop the process
with the unsupported-format error, but only after fgetc has consumed the byte: the stream
position is 1 at that point, not 0. -/
theorem read_samples_unsupported_counterexample :
    read_samples (session true 44100 1 .UNSIGNED 16 [7]) 0
      = .returned 0 (session true 44100 1 .UNSIGNED 16 [7], []) ∧
    read_samples (session true 44100 1 .UNSIGNED 16 [7]) 1
      = .exited 2 (sox_fail (advanced (session true 44100 1 .UNSIGNED 16 [7]) 1)
          "Undetected bad sample size in read!", []) ∧
    (read_samples (session true 44100 1 .UNSIGNED 16 [7]) 1).state.1.fp.pos = 1 := by
  refine ⟨rfl, ?_, ?_⟩ <;>
    simp [read_samples, read_loop, session, feof, fgetc, sox_fail, advanced, Outcome.state]

/-- C8 (amended): for a decode session whose (bits_per_sample, encoding) pair is not
(8, unsigned): a read of at least one sample with the end-of-file indicator clear makes
one fgetc call (which consumes one byte when one is unread), then reports one of the two
unsupported-format messages and stops the process with exit code 2, no sample stored; a
read of 0 samples, or a read with the end-of-file indicator set, returns 0 and leaves the
session and the stream as they were. -/
theorem read_samples_unsupported (ft : sox_format_t) (n : Nat)
    (h : ¬ (ft.encoding.bits_per_sample = 8 ∧ ft.encoding.encoding = .UNSIGNED)) :
    ((n = 0 ∨ ft.fp.eof = true) → read_samples ft n = .returned 0 (ft, [])) ∧
    ((n ≠ 0 ∧ ft.fp.eof = false) →
      ∃ st : sox_format_t,
        read_samples ft n = .exited 2 (st, []) ∧
        (reported_since ft st = ["Undetected bad sample size in read!"] ∨
          reported_since ft st = ["Undetected sample encoding in read!"]) ∧
        st.fp = (fgetc ft.fp).2 ∧
        (ft.fp.pos < ft.fp.data.length → st.fp.pos = ft.fp.pos + 1)) := by
  constructor
  · rintro (h0 | he)
    · subst h0; rfl
    · exact read_loop_eof n ft [] 0 he
  · rintro ⟨hn, he⟩
    obtain ⟨m, rfl⟩ : ∃ m, n = m + 1 := ⟨n - 1, by omega⟩
    by_cases h8 : ft.encoding.bits_per_sample = 8
    · have hU : ft.encoding.encoding ≠ .UNSIGNED := fun hU => h ⟨h8, hU⟩
      refine ⟨sox_fail { ft with fp := (fgetc ft.fp).2 } "Undetected sample encoding in read!",
        ?_, ?_, rfl, ?_⟩
      · cases hc : ft.encoding.encoding <;>
          simp_all [read_samples, read_loop, feof]
      · simp [sox_fail, reported_since]
      · intro hlt
        simp [sox_fail, fgetc, hlt]
    · refine ⟨sox_fail { ft with fp := (fgetc ft.fp).2 } "Undetected bad sample size in read!",
        ?_, ?_, rfl, ?_⟩
      · simp [read_samples, read_loop, feof, he, h8]
      · simp [sox_fail, reported_since]
      · intro hlt
        simp [sox_fail, fgetc, hlt]

/-- Witness for C8 (amended): a 16-bit unsigned session over the one-byte resource 7,
asked for one sample. -/
theorem read_samples_unsupported_witness :
    ∃ st : sox_format_t,
      read_samples (session true 44100 1 .UNSIGNED 16 [7]) 1 = .exited 2 (st, []) ∧
      st.fp = (fgetc (session true 44100 1 .UNSIGNED 16 [7]).fp).2 :=
  ((read_samples_unsupported (session true 44100 1 .UNSIGNED 16 [7]) 1 (by decide)).2
    ⟨by decide, rfl⟩).elim fun st hst => ⟨st, hst.1, hst.2.2.1⟩

/-! ## Theorems: seek -/

/-- C4 (counterexample): a freshly opened session over the bytes 10, 20, 30. After a
successful seek to sample index 1, a read of one sample yields the sample of byte 10,
whereas reading two samples from the start yields the sample of byte 20 last; the two
samples differ. -/
theorem seek_then_read_differs_from_sequential :
    (seek (startread byte_length (session true 0 0 .UNKNOWN 0 [10, 20, 30])).2 1).1
      = SOX_SUCCESS ∧
    (read_samples
      (seek (startread byte_length (session true 0 0 .UNKNOWN 0 [10, 20, 30])).2 1).2
      1).state.2 = [stored_sample 10] ∧
    (read_samples (startread byte_length (session true 0 0 .UNKNOWN 0 [10, 20, 30])).2
      2).state.2.getLast? = some (stored_sample 20) ∧
    stored_sample 10 ≠ stored_sample 20 := by
  refine ⟨rfl, ?_, ?_, by decide⟩
  · simp [seek, read_samples, read_loop, startread, session, feof, fgetc, stored_sample,
      Outcome.state]
  · simp [read_samples, read_loop, startread, session, feof, fgetc, stored_sample,
      Outcome.state]

/-- C4 (amended): for every session and every index k, seek returns success and leaves the
session and the stream position as they were. So a read of one sample after seek(k)
returns 0 samples when the end-of-file indicator is set; and in an 8-bit unsigned session
whose end-of-file indicator is clear and whose stream stands at byte offset p with a byte
unread, it returns the sample of byte p, which is the last sample of a sequential read of
p + 1 samples from the start of the resource. -/
theorem seek_keeps_position (ft : sox_format_t) (k : Nat) :
    (seek ft k).1 = SOX_SUCCESS ∧
    (seek ft k).2 = ft ∧
    (ft.fp.eof = true → read_samples (seek ft k).2 1 = .returned 0 (ft, [])) ∧
    (∀ hp : ft.fp.pos < ft.fp.data.length,
      ft.encoding.bits_per_sample = 8 → ft.encoding.encoding = .UNSIGNED →
      ft.fp.eof = false →
      read_samples (seek ft k).2 1
        = .returned 1
            (advanced ft 1, [stored_sample ((ft.fp.data.get ⟨ft.fp.pos, hp⟩ : Nat) : Int)]) ∧
      (read_samples (rewound ft) (ft.fp.pos + 1)).state.2.getLast?
        = some (stored_sample ((ft.fp.data.get ⟨ft.fp.pos, hp⟩ : Nat) : Int))) := by
  refine ⟨rfl, rfl, ?_, ?_⟩
  · intro he
    exact read_loop_eof 1 ft [] 0 he
  · intro hp h8 hU heof
    constructor
    · simp only [seek, read_samples]
      rw [read_loop_step 0 ft [] 0 h8 hU heof hp]
      simp [read_loop]
    · rw [read_samples, read_loop_within (ft.fp.pos + 1) (rewound ft) [] 0 h8 hU heof
        (by simp only [rewound]; omega)]
      simp only [Outcome.state, next_bytes, rewound, List.drop_zero, List.nil_append]
      rw [List.take_succ, List.getElem?_eq_getElem hp]
      simp only [Option.toList, List.map_append, List.map_cons, List.map_nil,
        List.getLast?_concat, List.get_eq_getElem]
      rfl

/-- Witness for C4 (amended): the stream over 10, 20, 30 standing at offset 2 with the
end-of-file indicator clear, seek to 0. -/
theorem seek_keeps_position_witness :
    read_samples
      (seek (advanced (session true 44100 1 .UNSIGNED 8 [10, 20, 30]) 2) 0).2 1
      = .returned 1
          (advanced (advanced (session true 44100 1 .UNSIGNED 8 [10, 20, 30]) 2) 1,
            [stored_sample 30]) :=
  ((seek_keeps_position (advanced (session true 44100 1 .UNSIGNED 8 [10, 20, 30]) 2) 0).2.2.2
    (by decide) rfl rfl rfl).1

/-! ## Theorems: sample conversions -/

/-- On a byte, the decoding conversion is the byte recentred on 128 and scaled by 2^24. -/
theorem unsigned_8bit_to_sample_eq (b : Nat) (hb : b < 256) :
    SOX_UNSIGNED_8BIT_TO_SAMPLE b = ((b : Int) - 128) * 2 ^ 24 := by
  interval_cases b <;> rfl

/-- C11: for every byte b, decoding b with the read-path conversion and encoding the
result with the write-path conversion gives b back and leaves the clip counter as it
was, whatever the counter and the width of the counter. -/
theorem unsigned_8bit_roundtrip (w b clips : Nat) (hb : b < 256) :
    SOX_SAMPLE_TO_UNSIGNED_8BIT w (SOX_UNSIGNED_8BIT_TO_SAMPLE b) clips = (b, clips) := by
  rw [unsigned_8bit_to_sample_eq b hb]
  have hnc : ¬ (((b : Int) - 128) * 2 ^ 24 > 0x7fffffff - 0x800000) := by
    norm_num
    omega
  have hq : ((((b : Int) - 128) * 2 ^ 24 + 2 ^ 31 + 2 ^ 23) / 2 ^ 24).toNat % 256 = b := by
    have h1 : (((b : Int) - 128) * 2 ^ 24 + 2 ^ 31 + 2 ^ 23) / 2 ^ 24 = (b : Int) := by
      norm_num
      omega
    rw [h1]
    simp only [Int.toNat_ofNat]
    omega
  simp only [SOX_SAMPLE_TO_UNSIGNED_8BIT, hnc, if_false, hq]

/-- Witness for C11: the byte 200 with a clip counter of 5 and a 32-bit counter. -/
theorem unsigned_8bit_roundtrip_witness :
    200 < 256 ∧
    SOX_SAMPLE_TO_UNSIGNED_8BIT 32 (SOX_UNSIGNED_8BIT_TO_SAMPLE 200) 5 = (200, 5) :=
  ⟨by decide, unsigned_8bit_roundtrip 32 200 5 (by decide)⟩

/-! ## Theorems: write_samples and the byte sink -/

/-- When every status the sink answers is nonzero as a `sox_size_t`, the loop of
write_samples, once entered with a nonzero count, never ends: no amount of fuel yields
a result. -/
theorem write_loop_refused_never_ends (w : Nat) (sink : List Nat → Nat → Int)
    (buf : Nat → Int) (hs : ∀ (units : List Nat) (u : Nat), to_size w (sink units u) ≠ 0) :
    ∀ (fuel : Nat) (ft : sox_format_t) (i len : Nat),
      len ≠ 0 → write_loop w sink buf fuel ft i len = none := by
  intro fuel
  induction fuel with
  | zero => intro ft i len _; rfl
  | succ k ih =>
    intro ft i len hlen
    simp only [write_loop, hlen, if_false, hs]
    exact ih _ _ _ (hs _ _)

/-- C12 (code at the failing input): an 8-bit unsigned session, three samples to write.
With a sink that accepts the first unit and refuses the rest, write_samples hands over one
unit and returns 0, not 1; whatever the sink answers, a call that returns at all returns
0. With a sink that refuses every unit, a write of one sample never ends: the refusal
status is stored in the counter and the loop goes on. -/
theorem write_samples_partial_sink :
    (∀ fuel : Nat,
      write_samples 32 (accepts_first 1) (fuel + 1)
          (session true 44100 1 .UNSIGNED 8 []) (fun _ => 0) 3
        = some (.returned 0
            { session true 44100 1 .UNSIGNED 8 [] with sunk := [128] })) ∧
    (∀ (w : Nat) (sink : List Nat → Nat → Int) (fuel : Nat) (buf : Nat → Int) (v : Nat)
        (st : sox_format_t),
      write_samples w sink fuel (session true 44100 1 .UNSIGNED 8 []) buf 3
        = some (.returned v st) → v = 0) ∧
    (∀ fuel : Nat,
      write_samples 32 (accepts_first 0) fuel
          (session true 44100 1 .UNSIGNED 8 []) (fun _ => 0) 1 = none) := by
  refine ⟨?_, ?_, ?_⟩
  · intro fuel
    simp [write_samples, session, write_loop, SOX_SAMPLE_TO_UNSIGNED_8BIT, to_size,
      accepts_first, SOX_SUCCESS]
  · intro w sink fuel buf v st h
    simp only [write_samples, session, if_true] at h
    exact write_loop_returns_zero w sink buf fuel _ 0 3 v st (by decide) h
  · intro fuel
    simp only [write_samples, session, if_true]
    exact write_loop_refused_never_ends 32 (accepts_first 0) (fun _ => 0)
      (by intro units u; simp [accepts_first, to_size, SOX_EOF]) fuel _ 0 1 (by decide)

/-- C17 (code at the failing input): an 8-bit unsigned session and a count of 0. Nothing
is handed to the sink and the session is unchanged, but the value returned is the
counter after its wrapping decrement, 2^w - 1 for a `sox_size_t` of w bits, which is
4294967295 for 32 bits, not 0. -/
theorem write_samples_zero_count_wraps :
    (∀ (w : Nat) (sink : List Nat → Nat → Int) (fuel : Nat) (buf : Nat → Int),
      write_samples w sink (fuel + 1) (session true 44100 1 .UNSIGNED 8 []) buf 0
        = some (.returned (2 ^ w - 1) (session true 44100 1 .UNSIGNED 8 []))) ∧
    (∀ (sink : List Nat → Nat → Int) (fuel : Nat) (buf : Nat → Int),
      write_samples 32 sink (fuel + 1) (session true 44100 1 .UNSIGNED 8 []) buf 0
        = some (.returned 4294967295 (session true 44100 1 .UNSIGNED 8 []))) := by
  have hgen : ∀ (w : Nat) (sink : List Nat → Nat → Int) (fuel : Nat) (buf : Nat → Int),
      write_samples w sink (fuel + 1) (session true 44100 1 .UNSIGNED 8 []) buf 0
        = some (.returned (2 ^ w - 1) (session true 44100 1 .UNSIGNED 8 [])) := by
    intro w sink fuel buf
    have hlt : 2 ^ w - 1 < 2 ^ w := Nat.sub_lt (Nat.pos_pow_of_pos w (by decide)) (by decide)
    simp [write_samples, session, write_loop, Nat.mod_eq_of_lt hlt]
  exact ⟨hgen, fun sink fuel buf => hgen 32 sink fuel buf⟩

/-! ## Theorems: what the transcoder leaves untouched -/

/-- The loop of read_samples, however it ends, leaves the signal and encoding parameters,
the session length, the private data, the clip counter and the sink trace as they were. -/
theorem read_loop_frame (k : Nat) :
    ∀ (ft : sox_format_t) (out : List Int) (done : Nat),
      (read_loop k ft out done).state.1.signal = ft.signal ∧
      (read_loop k ft out done).state.1.encoding = ft.encoding ∧
      (read_loop k ft out done).state.1.length = ft.length ∧
      (read_loop k ft out done).state.1.priv = ft.priv ∧
      (read_loop k ft out done).state.1.clips = ft.clips ∧
      (read_loop k ft out done).state.1.sunk = ft.sunk := by
  induction k with
  | zero => intro ft out done; simp [read_loop, Outcome.state]
  | succ k ih =>
    intro ft out done
    cases heof : ft.fp.eof
    · by_cases h8 : ft.encoding.bits_per_sample = 8
      · by_cases hU : ft.encoding.encoding = .UNSIGNED
        · simp only [read_loop, feof, heof, h8, hU]
          exact ih _ _ _
        · cases hc : ft.encoding.encoding <;>
            simp_all [read_loop, feof, sox_fail, Outcome.state]
      · simp [read_loop, feof, heof, h8, sox_fail, Outcome.state]
    · rw [read_loop_eof _ _ _ _ heof]
      simp [Outcome.state]

/-- The loop of write_samples, when it returns, leaves the signal and encoding parameters,
the session length, the private data and the input stream as they were. -/
theorem write_loop_frame (w : Nat) (sink : List Nat → Nat → Int) (buf : Nat → Int) :
    ∀ (fuel : Nat) (ft : sox_format_t) (i len v : Nat) (st : sox_format_t),
      write_loop w sink buf fuel ft i len = some (.returned v st) →
      st.signal = ft.signal ∧ st.encoding = ft.encoding ∧ st.length = ft.length ∧
        st.priv = ft.priv ∧ st.fp = ft.fp := by
  intro fuel
  induction fuel with
  | zero => intro ft i len v st h; simp [write_loop] at h
  | succ k ih =>
    intro ft i len v st h
    simp only [write_loop] at h
    split at h
    · simp only [Option.some.injEq, Outcome.returned.injEq] at h
      rw [← h.2]
      simp
    · split at h
      · simp only [Option.some.injEq, Outcome.returned.injEq] at h
        rw [← h.2]
        simp
      · have hf := ih _ _ _ v st h
        simpa using hf

/-- A call that returns leaves the signal and encoding parameters, the session length and
the private data as they were. -/
theorem step_frame (ft st : sox_format_t) (o : op) (h : step ft o = some st) :
    st.signal = ft.signal ∧ st.encoding = ft.encoding ∧ st.length = ft.length ∧
      st.priv = ft.priv := by
  cases o with
  | read len =>
    have hf := read_loop_frame len ft [] 0
    simp only [step, read_samples] at h
    cases hr : read_loop len ft [] 0 with
    | returned d s =>
      rw [hr] at h hf
      simp only [Option.some.injEq] at h
      rw [← h]
      exact ⟨hf.1, hf.2.1, hf.2.2.1, hf.2.2.2.1⟩
    | exited c s => rw [hr] at h; simp at h
  | seek offset =>
    simp only [step, seek, Option.some.injEq] at h
    rw [← h]; simp
  | stopread =>
    simp only [step, stopread, Option.some.injEq] at h
    rw [← h]; simp
  | write w sink fuel buf len =>
    simp only [step] at h
    cases hw : write_samples w sink fuel ft buf len with
    | none => rw [hw] at h; simp at h
    | some r =>
      cases r with
      | exited c s => rw [hw] at h; simp at h
      | returned v s =>
        rw [hw] at h
        simp only [Option.some.injEq] at h
        rw [← h]
        by_cases h8 : ft.encoding.bits_per_sample = 8
        · by_cases hU : ft.encoding.encoding = .UNSIGNED
          · simp only [write_samples, h8, hU, if_true] at hw
            have hf := write_loop_frame w sink buf fuel ft 0 len v s hw
            exact ⟨hf.1, hf.2.1, hf.2.2.1, hf.2.2.2.1⟩
          · cases hc : ft.encoding.encoding <;> simp_all [write_samples]
        · simp [write_samples, h8] at hw
  | stopwrite =>
    simp only [step, stopwrite, Option.some.injEq] at h
    rw [← h]; simp

/-- A sequence of calls that all return leaves the signal and encoding parameters, the
session length and the private data as they were. -/
theorem run_frame (ops : List op) :
    ∀ (ft st : sox_format_t), run ft ops = some st →
      st.signal = ft.signal ∧ st.encoding = ft.encoding ∧ st.length = ft.length ∧
        st.priv = ft.priv := by
  induction ops with
  | nil =>
    intro ft st h
    simp only [run, Option.some.injEq] at h
    rw [← h]; simp
  | cons o os ih =>
    intro ft st h
    simp only [run] at h
    cases hs : step ft o with
    | none => rw [hs] at h; simp at h
    | some ft1 =>
      rw [hs] at h
      have h1 := step_frame ft ft1 o hs
      have h2 := ih ft1 st h
      exact ⟨h2.1.trans h1.1, h2.2.1.trans h1.2.1, h2.2.2.1.trans h1.2.2.1,
        h2.2.2.2.trans h1.2.2.2⟩

/-! ## Theorems: how read_samples ends -/

/-- One iteration of the loop of read_samples in an 8-bit unsigned session with the
end-of-file indicator clear, whether or not a byte is unread: what fgetc returned is stored
converted and the stream is as fgetc left it. -/
theorem read_loop_iter (k : Nat) (ft : sox_format_t) (out : List Int) (done : Nat)
    (h8 : ft.encoding.bits_per_sample = 8) (hU : ft.encoding.encoding = .UNSIGNED)
    (heof : ft.fp.eof = false) :
    read_loop (k + 1) ft out done
      = read_loop k { ft with fp := (fgetc ft.fp).2 }
          (out ++ [stored_sample (fgetc ft.fp).1]) (done + 1) := by
  simp only [read_loop, feof, heof, h8, hU, stored_sample]
  simp

/-- The loop of read_samples either returns a count between `done` and `done + k`, having
stored one sample per unit of count, or stops the process with exit code 2 on its first
iteration, nothing stored, which only happens when the pair is not (8, unsigned). -/
theorem read_loop_outcome (k : Nat) :
    ∀ (ft : sox_format_t) (out : List Int) (done : Nat),
      (∃ (d : Nat) (st : sox_format_t) (out1 : List Int),
          read_loop k ft out done = .returned d (st, out1) ∧
          done ≤ d ∧ d ≤ done + k ∧ out1.length = out.length + (d - done)) ∨
      (¬ (ft.encoding.bits_per_sample = 8 ∧ ft.encoding.encoding = .UNSIGNED) ∧
        ∃ st : sox_format_t, read_loop k ft out done = .exited 2 (st, out)) := by
  induction k with
  | zero =>
    intro ft out done
    exact Or.inl ⟨done, ft, out, rfl, Nat.le_refl _, Nat.le_refl _, by simp⟩
  | succ k ih =>
    intro ft out done
    cases heof : ft.fp.eof
    · by_cases h8 : ft.encoding.bits_per_sample = 8
      · by_cases hU : ft.encoding.encoding = .UNSIGNED
        · rw [read_loop_iter k ft out done h8 hU heof]
          rcases ih { ft with fp := (fgetc ft.fp).2 } (out ++ [stored_sample (fgetc ft.fp).1])
            (done + 1) with ⟨d, st, out1, hr, h1, h2, h3⟩ | ⟨hne, _⟩
          · refine Or.inl ⟨d, st, out1, hr, by omega, by omega, ?_⟩
            rw [h3, List.length_append, List.length_singleton]
            omega
          · exact absurd ⟨h8, hU⟩ hne
        · refine Or.inr ⟨fun h => hU h.2, ?_⟩
          cases hc : ft.encoding.encoding <;> simp_all [read_loop, feof]
      · refine Or.inr ⟨fun h => h8 h.1, ?_⟩
        simp [read_loop, feof, heof, h8]
    · exact Or.inl ⟨done, ft, out, read_loop_eof _ _ _ _ heof, Nat.le_refl _,
        Nat.le_add_right _ _, by simp⟩

/-- In an 8-bit unsigned session every decode-side call returns, so a sequence of
decode-side calls runs to its end. -/
theorem run_decode_total (ops : List op) :
    ∀ ft : sox_format_t,
      ft.encoding.bits_per_sample = 8 → ft.encoding.encoding = .UNSIGNED →
      (∀ o ∈ ops, o.decode = true) → ∃ st : sox_format_t, run ft ops = some st := by
  induction ops with
  | nil => intro ft _ _ _; exact ⟨ft, rfl⟩
  | cons o os ih =>
    intro ft h8 hU hdec
    have ho : o.decode = true := hdec o (List.mem_cons_self o os)
    have hos : ∀ x ∈ os, x.decode = true := fun x hx => hdec x (List.mem_cons_of_mem o hx)
    have hstep : ∃ ft1 : sox_format_t, step ft o = some ft1 := by
      cases o with
      | read len =>
        rcases read_loop_outcome len ft [] 0 with ⟨d, st, out1, hr, _⟩ | ⟨hne, _⟩
        · exact ⟨st, by simp [step, read_samples, hr]⟩
        · exact absurd ⟨h8, hU⟩ hne
      | seek offset => exact ⟨_, rfl⟩
      | stopread => exact ⟨_, rfl⟩
      | write w sink fuel buf len => simp [op.decode] at ho
      | stopwrite => simp [op.decode] at ho
    obtain ⟨ft1, h1⟩ := hstep
    have hf := step_frame ft ft1 o h1
    obtain ⟨st, hst⟩ := ih ft1 (by rw [hf.2.1]; exact h8) (by rw [hf.2.1]; exact hU) hos
    exact ⟨st, by simp [run, h1, hst]⟩

/-- C13 (counterexample): a 16-bit signed decode session over the bytes 7, 8, asked for
two samples: the call stops the process and returns no count. -/
theorem read_samples_may_not_return :
    (read_samples (session true 44100 1 .SIGN2 16 [7, 8]) 2).value? = none := by
  simp [read_samples, read_loop, session, feof, Outcome.value?]

/-- C13 (amended): read_samples always terminates, and for every session state, count n
and resource: whenever it returns a count done, done <= n and exactly done samples are
stored; in an 8-bit unsigned session it does return; when it stops the process instead,
the exit code is 2, no sample is stored and the pair is not (8, unsigned). -/
theorem read_samples_count_bounded (ft : sox_format_t) (n : Nat) :
    (∀ (d : Nat) (st : sox_format_t) (out : List Int),
      read_samples ft n = .returned d (st, out) → d ≤ n ∧ out.length = d) ∧
    (ft.encoding.bits_per_sample = 8 ∧ ft.encoding.encoding = .UNSIGNED →
      ∃ (d : Nat) (st : sox_format_t) (out : List Int),
        read_samples ft n = .returned d (st, out) ∧ d ≤ n ∧ out.length = d) ∧
    (∀ (c : Nat) (st : sox_format_t) (out : List Int),
      read_samples ft n = .exited c (st, out) →
        c = 2 ∧ out = [] ∧
        ¬ (ft.encoding.bits_per_sample = 8 ∧ ft.encoding.encoding = .UNSIGNED)) := by
  rcases read_loop_outcome n ft [] 0 with ⟨d, st, out1, hr, _, h2, h3⟩ | ⟨hne, st, hr⟩
  · have hlen : out1.length = d := by simpa using h3
    refine ⟨?_, ?_, ?_⟩
    · intro d1 st1 o1 h
      rw [read_samples, hr] at h
      simp only [Outcome.returned.injEq, Prod.mk.injEq] at h
      rw [← h.1, ← h.2.2]
      exact ⟨by omega, hlen⟩
    · intro _
      exact ⟨d, st, out1, hr, by omega, hlen⟩
    · intro c st1 o1 h
      rw [read_samples, hr] at h
      simp at h
  · refine ⟨?_, ?_, ?_⟩
    · intro d1 st1 o1 h
      rw [read_samples, hr] at h
      simp at h
    · intro h
      exact absurd h hne
    · intro c st1 o1 h
      rw [read_samples, hr] at h
      simp only [Outcome.exited.injEq, Prod.mk.injEq] at h
      exact ⟨h.1.symm, h.2.2.symm, hne⟩

/-! ## Theorems: session state across calls -/

/-- A successful startread leaves an 8-bit unsigned session whose remaining_samples equals
its length. -/
theorem startread_success_state (q : sox_format_t → Nat) (ft : sox_format_t)
    (hopen : (startread q ft).1 = SOX_SUCCESS) :
    (startread q ft).2.encoding.bits_per_sample = 8 ∧
    (startread q ft).2.encoding.encoding = .UNSIGNED ∧
    (startread q ft).2.priv.remaining_samples = (startread q ft).2.length := by
  cases hseek : ft.seekable
  · simp [startread, hseek, SOX_SUCCESS, SOX_EOF] at hopen
  · simp [startread, hseek]

/-- C14: after a successful startread, every sequence of read_samples, seek and stopread
calls runs to its end, and in the state it reaches remaining_samples is at most the
session length (they are in fact equal) and is at least 0. -/
theorem remaining_samples_le_length (q : sox_format_t → Nat) (ft : sox_format_t)
    (ops : List op) (hopen : (startread q ft).1 = SOX_SUCCESS)
    (hdec : ∀ o ∈ ops, o.decode = true) :
    ∃ st : sox_format_t,
      run (startread q ft).2 ops = some st ∧
      st.priv.remaining_samples ≤ st.length ∧ 0 ≤ st.priv.remaining_samples := by
  have h0 := startread_success_state q ft hopen
  obtain ⟨st, hst⟩ := run_decode_total ops (startread q ft).2 h0.1 h0.2.1 hdec
  have hf := run_frame ops (startread q ft).2 st hst
  refine ⟨st, hst, ?_, Nat.zero_le _⟩
  rw [hf.2.2.2, hf.2.2.1, h0.2.2]

/-- Witness for C14: a three-byte resource; read 2, seek to 0, read 5, stopread, read 1. -/
theorem remaining_samples_le_length_witness :
    ∃ st : sox_format_t,
      run (startread byte_length (session true 8000 2 .SIGN2 16 [1, 2, 3])).2
        [.read 2, .seek 0, .read 5, .stopread, .read 1] = some st ∧
      st.priv.remaining_samples ≤ st.length ∧ 0 ≤ st.priv.remaining_samples :=
  remaining_samples_le_length byte_length (session true 8000 2 .SIGN2 16 [1, 2, 3])
    [.read 2, .seek 0, .read 5, .stopread, .read 1] rfl (by decide)

/-- C15: whatever session negotiation left, every sequence of read_samples,
write_samples, seek, stopread and stopwrite calls that return leaves bits_per_sample,
encoding, rate and channels exactly as they were at its start. -/
theorem format_immutable_after_negotiation (ft st : sox_format_t) (ops : List op)
    (hrun : run ft ops = some st) :
    st.encoding.bits_per_sample = ft.encoding.bits_per_sample ∧
    st.encoding.encoding = ft.encoding.encoding ∧
    st.signal.rate = ft.signal.rate ∧
    st.signal.channels = ft.signal.channels := by
  have hf := run_frame ops ft st hrun
  rw [hf.1, hf.2.1]
  exact ⟨rfl, rfl, rfl, rfl⟩

/-- Witness for C15: the session startread leaves over a three-byte resource, then read 2,
seek to 1, stopread, a write of two samples to an accepting sink, stopwrite. -/
theorem format_immutable_after_negotiation_witness :
    run (startread byte_length (session true 8000 2 .SIGN2 16 [1, 2, 3])).2
        [.read 2, .seek 1, .stopread, .write 32 (fun _ _ => SOX_SUCCESS) 4 (fun _ => 0) 2,
          .stopwrite]
      = some { advanced (startread byte_length (session true 8000 2 .SIGN2 16 [1, 2, 3])).2 2
          with sunk := [128] } ∧
    ({ advanced (startread byte_length (session true 8000 2 .SIGN2 16 [1, 2, 3])).2 2
        with sunk := [128] } : sox_format_t).encoding.bits_per_sample = 8 :=
  have hrun : run (startread byte_length (session true 8000 2 .SIGN2 16 [1, 2, 3])).2
        [.read 2, .seek 1, .stopread, .write 32 (fun _ _ => SOX_SUCCESS) 4 (fun _ => 0) 2,
          .stopwrite]
      = some { advanced (startread byte_length (session true 8000 2 .SIGN2 16 [1, 2, 3])).2 2
          with sunk := [128] } := by
    rfl
  ⟨hrun, (format_immutable_after_negotiation _ _ _ hrun).1⟩

/-- C18 (counterexample): a freshly opened session over the bytes 10, 20, 30 has
remaining_samples = 3; a read of two samples returns 2 and leaves remaining_samples at 3,
not at 3 - 2. -/
theorem remaining_samples_not_decremented :
    (startread byte_length (session true 0 0 .UNKNOWN 0 [10, 20, 30])).2.priv.remaining_samples
      = 3 ∧
    (read_samples (startread byte_length (session true 0 0 .UNKNOWN 0 [10, 20, 30])).2
      2).value? = some 2 ∧
    (read_samples (startread byte_length (session true 0 0 .UNKNOWN 0 [10, 20, 30])).2
      2).state.1.priv.remaining_samples = 3 ∧
    (read_samples (startread byte_length (session true 0 0 .UNKNOWN 0 [10, 20, 30])).2
      2).state.1.priv.remaining_samples ≠ 3 - 2 := by
  have hf := read_loop_frame 2
    (startread byte_length (session true 0 0 .UNKNOWN 0 [10, 20, 30])).2 [] 0
  have h3 : (startread byte_length
      (session true 0 0 .UNKNOWN 0 [10, 20, 30])).2.priv.remaining_samples = 3 := by
    simp [startread, session, byte_length]
  have hr : (read_samples (startread byte_length (session true 0 0 .UNKNOWN 0 [10, 20, 30])).2
      2).state.1.priv.remaining_samples = 3 := by
    rw [read_samples, hf.2.2.2.1, h3]
  refine ⟨h3, ?_, hr, by rw [hr]; decide⟩
  simp [read_samples, read_loop, startread, session, feof, fgetc, Outcome.value?]

/-- C18 (amended): a successful startread sets remaining_samples to the session length, and
read_samples never changes it: after a call, however it ends and whatever count it
returns, remaining_samples equals its value before the call. -/
theorem remaining_samples_unchanged_by_read (q : sox_format_t → Nat) (ft : sox_format_t)
    (n : Nat) :
    ((startread q ft).1 = SOX_SUCCESS →
      (startread q ft).2.priv.remaining_samples = (startread q ft).2.length) ∧
    (read_samples ft n).state.1.priv.remaining_samples = ft.priv.remaining_samples := by
  refine ⟨fun h => (startread_success_state q ft h).2.2, ?_⟩
  rw [read_samples, (read_loop_frame n ft [] 0).2.2.2.1]

/-! ## Theorems: decoded values -/

/-- Narrowing a byte to `unsigned char` leaves it as it is. -/
theorem to_uchar_byte (b : Nat) (hb : b < 256) : to_uchar (Int.ofNat b) = b := by
  simp only [to_uchar, Int.ofNat_eq_coe]
  omega

/-- On a byte, the decoding conversion is the 32-bit pattern b * 2^24 with the sign bit
flipped, read as a signed sample. -/
theorem unsigned_8bit_to_sample_xor (b : Nat) (hb : b < 256) :
    SOX_UNSIGNED_8BIT_TO_SAMPLE b = to_sample ((b * 2 ^ 24) ^^^ 0x80000000) := by
  have hlt : b * 2 ^ 24 < 2 ^ 32 := by omega
  simp only [SOX_UNSIGNED_8BIT_TO_SAMPLE, Nat.shiftLeft_eq, Nat.mod_eq_of_lt hlt]

/-- C16 (counterexample): an 8-bit unsigned decode session over the bytes 7, 8, 9 whose
stream stands at offset 1 with the end-of-file indicator set. Two bytes are unread, yet a
read of two samples returns 0, stores nothing and leaves the position where it was. -/
theorem read_samples_indicator_set_returns_zero :
    unread (at_eof (advanced (session true 44100 1 .UNSIGNED 8 [7, 8, 9]) 1)).fp = 2 ∧
    read_samples (at_eof (advanced (session true 44100 1 .UNSIGNED 8 [7, 8, 9]) 1)) 2
      = .returned 0 (at_eof (advanced (session true 44100 1 .UNSIGNED 8 [7, 8, 9]) 1), []) ∧
    (read_samples (at_eof (advanced (session true 44100 1 .UNSIGNED 8 [7, 8, 9]) 1))
      2).value? ≠ some 2 := by
  have hr := read_loop_eof 2 (at_eof (advanced (session true 44100 1 .UNSIGNED 8 [7, 8, 9]) 1))
    [] 0 rfl
  refine ⟨by decide, hr, ?_⟩
  rw [read_samples, hr]
  simp [Outcome.value?]

/-- C16 (amended): in an 8-bit unsigned decode session over a resource of bytes (values
below 256), whose end-of-file indicator is clear (or, if set, with no byte unread) and
whose stream has at least n unread bytes at its position, read_samples(n) returns n, moves
the position forward by exactly n, and stores n samples, sample i being the byte b at
offset pos + i converted: (b * 2^24) XOR 0x80000000 as a signed 32-bit value, that is
(b - 128) * 2^24. Byte 0 gives the minimum sample, byte 128 gives 0, and the conversion is
strictly increasing on bytes. -/
theorem read_samples_decodes_bytes (ft : sox_format_t) (n : Nat)
    (h8 : ft.encoding.bits_per_sample = 8) (hU : ft.encoding.encoding = .UNSIGNED)
    (hbytes : ∀ b ∈ ft.fp.data, b < 256)
    (hwf : ft.fp.eof = true → ft.fp.data.length ≤ ft.fp.pos)
    (hn : ft.fp.pos + n ≤ ft.fp.data.length) :
    (∃ out : List Int,
      read_samples ft n = .returned n (advanced ft n, out) ∧
      out.length = n ∧
      (advanced ft n).fp.pos = ft.fp.pos + n ∧
      ∀ i : Nat, i < n →
        ∃ b : Nat, ft.fp.data[ft.fp.pos + i]? = some b ∧
          out[i]? = some (to_sample ((b * 2 ^ 24) ^^^ 0x80000000)) ∧
          out[i]? = some (((b : Int) - 128) * 2 ^ 24)) ∧
    SOX_UNSIGNED_8BIT_TO_SAMPLE 0 = -2 ^ 31 ∧
    SOX_UNSIGNED_8BIT_TO_SAMPLE 128 = 0 ∧
    (∀ a b : Nat, a < b → b < 256 →
      SOX_UNSIGNED_8BIT_TO_SAMPLE a < SOX_UNSIGNED_8BIT_TO_SAMPLE b) := by
  refine ⟨?_, by rfl, by rfl, ?_⟩
  · cases n with
    | zero =>
      refine ⟨[], ?_, rfl, rfl, fun i hi => absurd hi (Nat.not_lt_zero i)⟩
      simp [read_samples, read_loop, advanced]
    | succ m =>
      have heof : ft.fp.eof = false := by
        cases he : ft.fp.eof
        · rfl
        · have := hwf he
          omega
      have hr := read_loop_within (m + 1) ft [] 0 h8 hU heof hn
      refine ⟨(next_bytes ft.fp (m + 1)).map stored_sample, ?_, ?_, rfl, ?_⟩
      · rw [read_samples, hr]
        simp
      · simp only [next_bytes, List.length_map, List.length_take, List.length_drop]
        omega
      · intro i hi
        have hlt : ft.fp.pos + i < ft.fp.data.length := by omega
        have hb : ft.fp.data[ft.fp.pos + i] < 256 := hbytes _ (List.getElem_mem hlt)
        refine ⟨ft.fp.data[ft.fp.pos + i], List.getElem?_eq_getElem hlt, ?_, ?_⟩
        · simp only [next_bytes, List.getElem?_map, List.getElem?_take_of_lt hi,
            List.getElem?_drop, List.getElem?_eq_getElem hlt, Option.map_some', stored_sample,
            to_uchar_byte _ hb, unsigned_8bit_to_sample_xor _ hb]
        · simp only [next_bytes, List.getElem?_map, List.getElem?_take_of_lt hi,
            List.getElem?_drop, List.getElem?_eq_getElem hlt, Option.map_some', stored_sample,
            to_uchar_byte _ hb, unsigned_8bit_to_sample_eq _ hb]
  · intro a b hab hb
    rw [unsigned_8bit_to_sample_eq a (by omega), unsigned_8bit_to_sample_eq b hb]
    have h : (a : Int) < (b : Int) := by exact_mod_cast hab
    linarith

/-- Witness for C16 (amended): the stream over 0, 128, 255 at its start with the
end-of-file indicator clear, three samples read. -/
theorem read_samples_decodes_bytes_witness :
    ∃ out : List Int,
      read_samples (session true 44100 1 .UNSIGNED 8 [0, 128, 255]) 3
        = .returned 3 (advanced (session true 44100 1 .UNSIGNED 8 [0, 128, 255]) 3, out) ∧
      out.length = 3 :=
  have h := (read_samples_decodes_bytes (session true 44100 1 .UNSIGNED 8 [0, 128, 255]) 3
    rfl rfl (by decide) (by decide) (by decide)).1
  h.elim fun out hout => ⟨out, hout.1, hout.2.1⟩

end SoxSkel
